import Mathlib

/-!
Shallow embedding of `src/pca.py` (a Paired Comparison Analysis tool) and
verification of the specification's claims about it.

The embedding follows the Python source closely:
* `Comparison` keeps the `(best, worst)` tuple `_items` and an integer weight;
  `set_best` returns the raised error (if any) together with the post-state
  (the `RuntimeError` is raised before any mutation, so the state is unchanged
  in the error case, exactly as in Python).
* `SeekableIterator` is a list with a cursor; `__next__` and `seek` are modelled
  as pure state transformers that also report the raised error.  Python's `seek`
  mutates `self.index` before raising `IndexError`, so the model returns the
  updated state alongside the error flag.
* The ranking computation of `PCA._get_ordered_list` is split into the
  accumulation loop (`buildFinal`), the stable descending sort (`sortDesc`,
  Python's `sorted(..., key=itemgetter(1), reverse=True)` is guaranteed stable)
  and the enumeration walk that threads the `weighted` flag (`rankWalk`),
  plus the string rendering (`renderLine` / `orderedLines`).
* Python's float expression `int(((float(w)/float(t))*100.0)+0.5)` is modelled
  over exact rationals: `pyInt` is `int`'s truncation toward zero.
* The interactive compare pass `PCA._do_compare` is driven by a scripted list
  of input lines; reading from an exhausted script models `EOFError`.
-/

deriving instance DecidableEq for Except

namespace Pca

/-- Exceptions raised by the embedded code: `RuntimeError` from
`Comparison.set_best`, `IndexError` from `SeekableIterator.seek`,
`StopIteration` from `SeekableIterator.__next__`, `EOFError` from `input()`
on an exhausted stream. -/
inductive PyError : Type
  | runtimeError : PyError
  | indexError : PyError
  | stopIteration : PyError
  | eofError : PyError
deriving DecidableEq, Repr

variable {α : Type} [DecidableEq α]

/-- The `Comparison` class: `_items = (one, two)` with `_items[0]` the current
best and `_items[1]` the current worst, plus the integer `weight`. -/
structure Comparison (α : Type) where
  _items : α × α
  weight : Nat
deriving DecidableEq, Repr

/-- `Comparison.__init__(one, two)`: items `(one, two)`, weight `0`. -/
def Comparison.init (one two : α) : Comparison α := ⟨(one, two), 0⟩

/-- The `best` property: `_items[0]`. -/
def Comparison.best (c : Comparison α) : α := c._items.1

/-- The `worst` property: `_items[1]`. -/
def Comparison.worst (c : Comparison α) : α := c._items.2

/-- `Comparison.set_best(item)`: raises `RuntimeError` when `item` is in
neither slot of `_items` (raised before any mutation, so the returned state is
the unchanged comparison); otherwise swaps the two slots when `item` is the
current worst. -/
def Comparison.set_best (c : Comparison α) (item : α) : Option PyError × Comparison α :=
  if ¬ (item = c._items.1 ∨ item = c._items.2) then (some .runtimeError, c)
  else if item = c.worst then (none, ⟨(c._items.2, c._items.1), c.weight⟩)
  else (none, c)

/-- `Comparison.__eq__(other)`:
`other.best in self._items and other.worst in self._items`. -/
def Comparison.eq (c other : Comparison α) : Bool :=
  (decide (other.best = c._items.1) || decide (other.best = c._items.2)) &&
  (decide (other.worst = c._items.1) || decide (other.worst = c._items.2))

/-- The `SeekableIterator` class: the wrapped sequence and the cursor.
`__iter__` starts the cursor at 0; the state below is the post-`__iter__`
state, so the cursor is a natural number (`seek` clamps it at 0). -/
structure SeekableIterator (α : Type) where
  iterable : List α
  index : Nat
deriving DecidableEq, Repr

/-- `SeekableIterator.__next__`: return `iterable[index]` and advance the
cursor, or raise `StopIteration` past the end. -/
def SeekableIterator.next (s : SeekableIterator α) : Except PyError (α × SeekableIterator α) :=
  match s.iterable.get? s.index with
  | some v => .ok (v, ⟨s.iterable, s.index + 1⟩)
  | none => .error .stopIteration

/-- `SeekableIterator.seek(n, relative)`: a relative seek adds `n - 1` (because
`__next__` has already advanced the cursor); the result is clamped below at 0;
if the resulting position is at or past the end, `IndexError` is raised — after
the cursor was already updated, which the returned state records. -/
def SeekableIterator.seek (s : SeekableIterator α) (n : Int) (relative : Bool) :
    SeekableIterator α × Option PyError :=
  let i : Int := if relative then (s.index : Int) + (n - 1) else n
  let j : Nat := (if i < 0 then 0 else i).toNat
  if s.iterable.length ≤ j then (⟨s.iterable, j⟩, some .indexError)
  else (⟨s.iterable, j⟩, none)

/-- Insertion-ordered association list standing in for the Python dict `final`
of `_get_ordered_list`; `setdefault` appends a missing key with value 0
(Python dicts preserve insertion order). -/
def setdefault (l : List (α × Nat)) (k : α) : List (α × Nat) :=
  if l.any (fun p => decide (p.1 = k)) then l else l ++ [(k, 0)]

/-- `final[k] += w` on the association list. -/
def addWeight (l : List (α × Nat)) (k : α) (w : Nat) : List (α × Nat) :=
  l.map (fun p => if p.1 = k then (p.1, p.2 + w) else p)

/-- The accumulation loop of `PCA._get_ordered_list`: for each stored
comparison, `final.setdefault(best, 0)`, `final.setdefault(worst, 0)`,
`final[best] += weight` and `total += weight`. -/
def buildFinal (cs : List (Comparison α)) : List (α × Nat) × Nat :=
  cs.foldl
    (fun acc c =>
      (addWeight (setdefault (setdefault acc.1 c.best) c.worst) c.best c.weight,
       acc.2 + c.weight))
    ([], 0)

/-- Python's `sorted(final.items(), key=itemgetter(1), reverse=True)`:
a stable sort by descending value.  Stable sorts of a list agree, so the
stable `List.insertionSort` produces exactly the list Python's stable
Timsort does. -/
def sortDesc (l : List (α × Nat)) : List (α × Nat) :=
  List.insertionSort (fun p q => q.2 ≤ p.2) l

/-- Python's `int(...)` truncation toward zero, on the exact rational that
stands in for the source's float arithmetic. -/
def pyInt (q : ℚ) : ℤ := if 0 ≤ q then ⌊q⌋ else ⌈q⌉

/-- `int(((float(item[1]) / float(total)) * 100.0) + 0.5)` from
`_get_ordered_list`. -/
def percentage_calc (w total : Nat) : ℤ :=
  pyInt ((w : ℚ) / (total : ℚ) * 100 + 1 / 2)

/-- One structured output row of `_get_ordered_list` before string
formatting: the item, its accumulated weight, and the rendered rank and
percentage (`none` stands for the `'?'` markers). -/
structure RankLine (α : Type) where
  item : α
  weight : Nat
  pos : Option Nat
  percentage : Option Int
deriving DecidableEq, Repr

/-- The `for i, item in enumerate(sorted(...))` loop of `_get_ordered_list`,
threading the `weighted` flag: `weighted = weighted or item[1] != 0`; once
set, rows get rank `i + 1` and the computed percentage, before that they get
the `'?'` markers. -/
def rankWalk (total : Nat) : Nat → Bool → List (α × Nat) → List (RankLine α)
  | _, _, [] => []
  | i, weighted, p :: rest =>
    let weighted' := weighted || decide (p.2 ≠ 0)
    (if weighted' then
      RankLine.mk p.1 p.2 (some (i + 1)) (some (percentage_calc p.2 total))
     else RankLine.mk p.1 p.2 none none) :: rankWalk total (i + 1) weighted' rest

/-- `PCA._get_ordered_list`, structured: when `final` is nonempty walk the
sorted entries, otherwise list the raw item set with `'?'` markers.
`items` is a snapshot of the `self._items` set. -/
def get_ordered_list (items : List α) (cs : List (Comparison α)) : List (RankLine α) :=
  let ft := buildFinal cs
  if ft.1.isEmpty then items.map (fun a => RankLine.mk a 0 none none)
  else rankWalk ft.2 0 false (sortDesc ft.1)

/-- Python `'{:>2}'.format` right-justification to width `w`. -/
def rjust (s : String) (w : Nat) : String :=
  String.mk (List.replicate (w - s.length) ' ') ++ s

/-- `'{:>2}: [{}] {}'.format(pos, percentage, item[0])` for one row, where
`percentage` is `f'{percentage_calc:>2}%'` when ranked and `'?'` otherwise. -/
def renderLine (r : RankLine String) : String :=
  let pos := match r.pos with | some n => toString n | none => "?"
  let pct := match r.percentage with
    | some v => rjust (toString v) 2 ++ "%"
    | none => "?"
  rjust pos 2 ++ ": [" ++ pct ++ "] " ++ r.item

/-- The list of strings `PCA._get_ordered_list` returns (the `'?: {}'` format
is used when there are no comparisons at all). -/
def orderedLines (items : List String) (cs : List (Comparison String)) : List String :=
  let ft := buildFinal cs
  if ft.1.isEmpty then items.map (fun a => "?: " ++ a)
  else (rankWalk ft.2 0 false (sortDesc ft.1)).map renderLine

/-- `itertools.combinations(items, 2)` over a list snapshot of the item set. -/
def combinations2 : List α → List (α × α)
  | [] => []
  | x :: xs => xs.map (fun y => (x, y)) ++ combinations2 xs

/-- `Comparison.request_best` against a scripted input stream: consume lines
until one strips-and-lowers to `a`/`b`/`u`; on `a`/`b` call `set_best` with
the corresponding slot of `_items` (always a member of the tuple, so that
`set_best` call cannot raise) and return the lower-cased letter with the
re-oriented comparison; `none` models `EOFError` on an exhausted stream. -/
def request_best (c : Comparison α) : List String → Option (String × Comparison α × List String)
  | [] => none
  | line :: rest =>
    let b := line.trim.toLower
    if b = "a" then some ("a", (c.set_best c._items.1).2, rest)
    else if b = "b" then some ("b", (c.set_best c._items.2).2, rest)
    else if b = "u" then some ("u", c, rest)
    else request_best c rest

/-- `self._comparisons.index(comparison)` followed by `.remove(comparison)`
under `Comparison.__eq__`, with the surrounding `try/except ValueError: pass`:
drop the first stored comparison ranging over the same unordered pair as `c`;
a no-op when there is none. -/
def removeFirst (stored : List (Comparison α)) (c : Comparison α) : List (Comparison α) :=
  match stored with
  | [] => []
  | x :: xs => if x.eq c then xs else x :: removeFirst xs c

/-- A helper for the termination of the compare loop: `request_best` consumes
at least one input line. -/
theorem request_best_consumes (c : Comparison α) (input : List String)
    (r : String) (c' : Comparison α) (rest : List String)
    (h : request_best c input = some (r, c', rest)) : rest.length < input.length := by
  induction input with
  | nil => exact absurd h (by simp [request_best])
  | cons line tail ih =>
    unfold request_best at h
    dsimp only at h
    split at h
    · injection h with h'
      injection h' with hr h''
      injection h'' with hc hrest
      rw [← hrest]
      exact Nat.lt_succ_self _
    · split at h
      · injection h with h'
        injection h' with hr h''
        injection h'' with hc hrest
        rw [← hrest]
        exact Nat.lt_succ_self _
      · split at h
        · injection h with h'
          injection h' with hr h''
          injection h'' with hc hrest
          rw [← hrest]
          exact Nat.lt_succ_self _
        · exact Nat.lt_trans (ih h) (Nat.lt_succ_self _)

/-- The `for item1, item2 in seeker:` loop of `PCA._do_compare`: for each
pair, remove any stored comparison over the same pair (the undo replay case),
elicit the best; on `u` seek back one position (that backward relative seek
can never raise, so its error slot is dropped as in the source), otherwise
append the comparison; `EOFError` from `request_best` propagates out of the
loop. -/
def compareLoop (seeker : SeekableIterator (α × α)) (stored : List (Comparison α))
    (input : List String) : Except PyError (List (Comparison α)) :=
  match seeker.next with
  | .error _ => .ok stored
  | .ok (pair, seeker') =>
    let c0 : Comparison α := ⟨pair, 0⟩
    let stored' := removeFirst stored c0
    match h : request_best c0 input with
    | none => .error .eofError
    | some (r, c', rest) =>
      if r = "u" then compareLoop (seeker'.seek (-1) true).1 stored' rest
      else compareLoop seeker' (stored' ++ [c']) rest
termination_by input.length
decreasing_by
  all_goals exact request_best_consumes _ _ _ _ _ h

/-- `PCA._do_compare`: reset the collection, enumerate all pairs, run the
elicitation loop over them (the `for` statement starts the iterator at
cursor 0), and on `EOFError` discard everything collected in this run. -/
def _do_compare (items : List α) (input : List String) : List (Comparison α) :=
  match compareLoop ⟨combinations2 items, 0⟩ [] input with
  | .error _ => []
  | .ok cs => cs

/-- The three comparisons of C1: `X>Y` weight 2, `X>Z` weight 1, `Y>Z`
weight 3. -/
def csXYZ : List (Comparison String) :=
  [⟨("X", "Y"), 2⟩, ⟨("X", "Z"), 1⟩, ⟨("Y", "Z"), 3⟩]

/-- Evaluation bridge for the percentage computation: on naturals the rounded
quotient is the integer division `(200 w + t) / (2 t)` (also for `t = 0`,
where the rational division yields 0 and so does the natural division). -/
theorem percentage_calc_eq_div (w total : Nat) :
    percentage_calc w total = ((200 * w + total) / (2 * total) : ℕ) := by
  unfold percentage_calc pyInt
  rcases Nat.eq_zero_or_pos total with h0 | hpos
  · subst h0
    norm_num
  · have ht : (total : ℚ) ≠ 0 := by positivity
    have hq : (w : ℚ) / (total : ℚ) * 100 + 1 / 2
        = ((200 * w + total : ℕ) : ℚ) / ((2 * total : ℕ) : ℚ) := by
      push_cast
      field_simp
      ring
    rw [if_pos (by positivity), hq, Rat.floor_natCast_div_natCast]
    exact (Int.ofNat_tdiv _ _).symm

/-- C1: for items `{X, Y, Z}` with comparisons `X>Y(2)`, `X>Z(1)`, `Y>Z(3)`,
the accumulation yields per-winner totals `X=3`, `Y=3`, `Z=0` and grand total
6; the rows are sorted descending by weight and render `X=50%`, `Y=50%`,
`Z=0%`, with `Z` getting the numeric rank 3 (not `'?'`) because a nonzero
weight was already seen in the run. -/
theorem ranking_example_xyz :
    buildFinal csXYZ = ([("X", 3), ("Y", 3), ("Z", 0)], 6) ∧
    get_ordered_list ["X", "Y", "Z"] csXYZ =
      [⟨"X", 3, some 1, some 50⟩, ⟨"Y", 3, some 2, some 50⟩, ⟨"Z", 0, some 3, some 0⟩] ∧
    orderedLines ["X", "Y", "Z"] csXYZ = [" 1: [50%] X", " 2: [50%] Y", " 3: [ 0%] Z"] := by
  have h50 : percentage_calc 3 6 = 50 := by rw [percentage_calc_eq_div]; rfl
  have h0 : percentage_calc 0 6 = 0 := by rw [percentage_calc_eq_div]; rfl
  refine ⟨by decide, ?_, ?_⟩
  · have key : get_ordered_list ["X", "Y", "Z"] csXYZ =
        [⟨"X", 3, some 1, some (percentage_calc 3 6)⟩,
         ⟨"Y", 3, some 2, some (percentage_calc 3 6)⟩,
         ⟨"Z", 0, some 3, some (percentage_calc 0 6)⟩] := rfl
    rw [key, h50, h0]
  · have key : orderedLines ["X", "Y", "Z"] csXYZ =
        [renderLine ⟨"X", 3, some 1, some (percentage_calc 3 6)⟩,
         renderLine ⟨"Y", 3, some 2, some (percentage_calc 3 6)⟩,
         renderLine ⟨"Z", 0, some 3, some (percentage_calc 0 6)⟩] := rfl
    rw [key, h50, h0]
    rfl

/-- C2 counterexample: with working items `{A, B, C}` and a stored comparison
only for the pair `(A, B)`, the ranking output contains rows for `A` and `B`
only — the never-compared item `C` gets no output line at all, refuting "every
item in the working item set appears in the ranking output". -/
theorem uncompared_item_missing :
    "C" ∈ (["A", "B", "C"] : List String) ∧
    ∀ r ∈ get_ordered_list ["A", "B", "C"] [⟨("A", "B"), 0⟩], r.item ≠ "C" := by
  decide

/-- C4: for all distinct items `a`, `b`, `Comparison(a,b) == Comparison(b,a)`;
and between comparisons over two distinct items (the class invariant:
comparisons are built from pairs of distinct items), `__eq__` holds exactly
when the two range over the same unordered pair, regardless of orientation or
weight. -/
theorem comparison_eq_unordered_pair (a b : α) (hab : a ≠ b)
    (c d : Comparison α) (hc : c.best ≠ c.worst) (hd : d.best ≠ d.worst) :
    Comparison.eq (Comparison.init a b) (Comparison.init b a) = true ∧
    (Comparison.eq c d = true ↔
      ((d.best = c.best ∧ d.worst = c.worst) ∨ (d.best = c.worst ∧ d.worst = c.best))) := by
  obtain ⟨⟨p, q⟩, w⟩ := c
  obtain ⟨⟨r, s⟩, v⟩ := d
  simp only [Comparison.eq, Comparison.init, Comparison.best, Comparison.worst] at *
  constructor
  · simp
  · simp only [Bool.and_eq_true, Bool.or_eq_true, decide_eq_true_eq]
    constructor
    · rintro ⟨hr | hr, hs | hs⟩
      · exact absurd (hr.trans hs.symm) hd
      · exact Or.inl ⟨hr, hs⟩
      · exact Or.inr ⟨hr, hs⟩
      · exact absurd (hr.trans hs.symm) hd
    · rintro (⟨hr, hs⟩ | ⟨hr, hs⟩)
      · exact ⟨Or.inl hr, Or.inr hs⟩
      · exact ⟨Or.inr hr, Or.inl hs⟩

/-- Witness for `comparison_eq_unordered_pair` at concrete comparisons. -/
theorem comparison_eq_unordered_pair_witness :
    Comparison.eq (Comparison.init "x" "y") (Comparison.init "y" "x") = true ∧
    (Comparison.eq (⟨("x", "y"), 0⟩ : Comparison String) ⟨("y", "x"), 5⟩ = true ↔
      (((⟨("y", "x"), 5⟩ : Comparison String).best = (⟨("x", "y"), 0⟩ : Comparison String).best ∧
        (⟨("y", "x"), 5⟩ : Comparison String).worst = (⟨("x", "y"), 0⟩ : Comparison String).worst) ∨
       ((⟨("y", "x"), 5⟩ : Comparison String).best = (⟨("x", "y"), 0⟩ : Comparison String).worst ∧
        (⟨("y", "x"), 5⟩ : Comparison String).worst = (⟨("x", "y"), 0⟩ : Comparison String).best))) :=
  comparison_eq_unordered_pair "x" "y" (by decide) ⟨("x", "y"), 0⟩ ⟨("y", "x"), 5⟩
    (by decide) (by decide)

/-- C5: over `[0,1,2,3,4]`, advancing three times returns 0, 1, 2 (cursor 3);
then `seek(-1, relative=True)` moves the cursor to 1 so the next advance
returns 1 (not 2); and `seek(0, relative=False)` followed by an advance
returns 0. -/
theorem seekable_example_run :
    SeekableIterator.next ⟨[0, 1, 2, 3, 4], 0⟩ = .ok (0, ⟨[0, 1, 2, 3, 4], 1⟩) ∧
    SeekableIterator.next ⟨[0, 1, 2, 3, 4], 1⟩ = .ok (1, ⟨[0, 1, 2, 3, 4], 2⟩) ∧
    SeekableIterator.next ⟨[0, 1, 2, 3, 4], 2⟩ = .ok (2, ⟨[0, 1, 2, 3, 4], 3⟩) ∧
    SeekableIterator.seek ⟨[0, 1, 2, 3, 4], 3⟩ (-1) true = (⟨[0, 1, 2, 3, 4], 1⟩, none) ∧
    SeekableIterator.next ⟨[0, 1, 2, 3, 4], 1⟩ = .ok (1, ⟨[0, 1, 2, 3, 4], 2⟩) ∧
    SeekableIterator.seek ⟨[0, 1, 2, 3, 4], 2⟩ 0 false = (⟨[0, 1, 2, 3, 4], 0⟩, none) ∧
    SeekableIterator.next ⟨[0, 1, 2, 3, 4], 0⟩ = .ok (0, ⟨[0, 1, 2, 3, 4], 1⟩) := by
  decide

/-- C6 counterexample: after `advance` has just returned the element 2 (cursor
3), `seek(-1, relative=True)` makes the next advance return 1, which is not the
just-returned element 2 — so `seek(-1, relative=True)` does not replay the
element just returned. -/
theorem seek_minus_one_not_replay :
    SeekableIterator.next ⟨[0, 1, 2, 3, 4], 2⟩ = .ok (2, ⟨[0, 1, 2, 3, 4], 3⟩) ∧
    SeekableIterator.seek ⟨[0, 1, 2, 3, 4], 3⟩ (-1) true = (⟨[0, 1, 2, 3, 4], 1⟩, none) ∧
    SeekableIterator.next ⟨[0, 1, 2, 3, 4], 1⟩ = .ok (1, ⟨[0, 1, 2, 3, 4], 2⟩) ∧
    (1 : Nat) ≠ 2 := by
  decide

/-- C6 amended: immediately after `advance` returns an element,
`seek(0, relative=True)` (not `seek(-1, ...)`) makes the next advance return
that same element again, while `seek(-1, relative=True)` moves the cursor to
the position before the just-returned element (clamped at the first). -/
theorem seek_zero_replays_last (xs : List α) (i : Nat) (x : α) (s' : SeekableIterator α)
    (h : SeekableIterator.next ⟨xs, i⟩ = .ok (x, s')) :
    (s'.seek 0 true).2 = none ∧
    SeekableIterator.next (s'.seek 0 true).1 = .ok (x, s') ∧
    (s'.seek (-1) true).1.index = i - 1 := by
  unfold SeekableIterator.next at h
  cases hg : (xs.get? i) with
  | none => rw [hg] at h; exact absurd h (by simp)
  | some v =>
    rw [hg] at h
    obtain ⟨hv, hs⟩ : v = x ∧ (⟨xs, i + 1⟩ : SeekableIterator α) = s' := by
      simpa using h
    subst hv hs
    have hlen : i < xs.length := (List.get?_eq_some.mp hg).1
    have h0 : ((⟨xs, i + 1⟩ : SeekableIterator α).seek 0 true) = (⟨xs, i⟩, none) := by
      simp only [SeekableIterator.seek]
      norm_num
      rw [if_neg (by omega : ¬ ((i : Int) < 0)), Int.toNat_natCast,
        if_neg (by omega : ¬ (xs.length ≤ i))]
    refine ⟨by rw [h0], by rw [h0]; unfold SeekableIterator.next; rw [hg], ?_⟩
    simp only [SeekableIterator.seek]
    push_cast
    rw [(by ring : (i : Int) + 1 + -2 = (i : Int) - 1)]
    have ht : ((if ((i : Int) - 1 < 0) then 0 else (i : Int) - 1)).toNat = i - 1 := by
      split <;> omega
    rw [ht]
    split <;> rfl

/-- Witness for `seek_zero_replays_last`: over `[10, 20]` after advancing past
index 1. -/
theorem seek_zero_replays_last_witness :
    ((⟨[10, 20], 2⟩ : SeekableIterator Nat).seek 0 true).2 = none ∧
    SeekableIterator.next ((⟨[10, 20], 2⟩ : SeekableIterator Nat).seek 0 true).1 =
      .ok (20, ⟨[10, 20], 2⟩) ∧
    ((⟨[10, 20], 2⟩ : SeekableIterator Nat).seek (-1) true).1.index = 1 - 1 :=
  seek_zero_replays_last [10, 20] 1 20 ⟨[10, 20], 2⟩ (by decide)

/-- C7: on a 5-element sequence, `seek(100, relative=False)` raises
`IndexError` (the SeekOverflow of the spec), while `seek(-100, relative=False)`
clamps the cursor to 0 and raises nothing. -/
theorem seek_bounds (xs : List α) (i : Nat) (h : xs.length = 5) :
    ((⟨xs, i⟩ : SeekableIterator α).seek 100 false).2 = some PyError.indexError ∧
    (⟨xs, i⟩ : SeekableIterator α).seek (-100) false = (⟨xs, 0⟩, none) := by
  constructor
  · simp only [SeekableIterator.seek]
    norm_num [h]
  · simp only [SeekableIterator.seek]
    norm_num [h]

/-- Witness for `seek_bounds` on the concrete sequence `[0,1,2,3,4]`. -/
theorem seek_bounds_witness :
    ((⟨[0, 1, 2, 3, 4], 3⟩ : SeekableIterator Nat).seek 100 false).2 =
      some PyError.indexError ∧
    (⟨[0, 1, 2, 3, 4], 3⟩ : SeekableIterator Nat).seek (-100) false =
      (⟨[0, 1, 2, 3, 4], 0⟩, none) :=
  seek_bounds [0, 1, 2, 3, 4] 3 (by decide)

/-- C8: `set_best(x)` for `x` outside the comparison's two items raises
`RuntimeError` and leaves the comparison (in particular its orientation)
unchanged. -/
theorem set_best_invalid_item (c : Comparison α) (x : α)
    (h1 : x ≠ c.best) (h2 : x ≠ c.worst) :
    c.set_best x = (some PyError.runtimeError, c) := by
  unfold Comparison.set_best
  rw [if_pos]
  push_neg
  exact ⟨h1, h2⟩

/-- Witness for `set_best_invalid_item` at a concrete comparison. -/
theorem set_best_invalid_item_witness :
    (⟨("a", "b"), 2⟩ : Comparison String).set_best "z" =
      (some PyError.runtimeError, ⟨("a", "b"), 2⟩) :=
  set_best_invalid_item ⟨("a", "b"), 2⟩ "z" (by decide) (by decide)

/-- C10: `set_best(x)` for `x` one of the two items raises nothing, makes `x`
the best, keeps the unordered item pair and the weight unchanged; `set_best`
of the current best is a no-op, and `set_best` of the current worst twice
restores the original comparison. -/
theorem set_best_frame (c : Comparison α) (x : α) (hx : x = c.best ∨ x = c.worst) :
    (c.set_best x).1 = none ∧
    (c.set_best x).2.best = x ∧
    (((c.set_best x).2.best = c.best ∧ (c.set_best x).2.worst = c.worst) ∨
     ((c.set_best x).2.best = c.worst ∧ (c.set_best x).2.worst = c.best)) ∧
    (c.set_best x).2.weight = c.weight ∧
    (c.set_best c.best).2 = c ∧
    (((c.set_best c.worst).2).set_best (((c.set_best c.worst).2).worst)).2 = c := by
  obtain ⟨⟨p, q⟩, w⟩ := c
  simp only [Comparison.best, Comparison.worst] at hx ⊢
  by_cases hpq : p = q
  · subst hpq
    rcases hx with hx | hx <;> subst hx <;>
      simp [Comparison.set_best, Comparison.best, Comparison.worst]
  · rcases hx with hx | hx <;> subst hx <;>
      simp [Comparison.set_best, Comparison.best, Comparison.worst, hpq, Ne.symm hpq]

/-- Witness for `set_best_frame` at a concrete comparison. -/
theorem set_best_frame_witness :
    ((⟨("a", "b"), 3⟩ : Comparison String).set_best "b").1 = none ∧
    ((⟨("a", "b"), 3⟩ : Comparison String).set_best "b").2.best = "b" ∧
    ((((⟨("a", "b"), 3⟩ : Comparison String).set_best "b").2.best =
        (⟨("a", "b"), 3⟩ : Comparison String).best ∧
      ((⟨("a", "b"), 3⟩ : Comparison String).set_best "b").2.worst =
        (⟨("a", "b"), 3⟩ : Comparison String).worst) ∨
     (((⟨("a", "b"), 3⟩ : Comparison String).set_best "b").2.best =
        (⟨("a", "b"), 3⟩ : Comparison String).worst ∧
      ((⟨("a", "b"), 3⟩ : Comparison String).set_best "b").2.worst =
        (⟨("a", "b"), 3⟩ : Comparison String).best)) ∧
    ((⟨("a", "b"), 3⟩ : Comparison String).set_best "b").2.weight =
      (⟨("a", "b"), 3⟩ : Comparison String).weight ∧
    ((⟨("a", "b"), 3⟩ : Comparison String).set_best
      (⟨("a", "b"), 3⟩ : Comparison String).best).2 = ⟨("a", "b"), 3⟩ ∧
    ((((⟨("a", "b"), 3⟩ : Comparison String).set_best
        (⟨("a", "b"), 3⟩ : Comparison String).worst).2).set_best
      ((((⟨("a", "b"), 3⟩ : Comparison String).set_best
        (⟨("a", "b"), 3⟩ : Comparison String).worst).2).worst)).2 = ⟨("a", "b"), 3⟩ :=
  set_best_frame ⟨("a", "b"), 3⟩ "b" (Or.inr (by decide))


theorem mem_keys_setdefault (l : List (α × Nat)) (k a : α) :
    a ∈ (setdefault l k).map Prod.fst ↔ a ∈ l.map Prod.fst ∨ a = k := by
  unfold setdefault
  split
  · rename_i hany
    simp only [List.any_eq_true, decide_eq_true_eq] at hany
    obtain ⟨p, hp, hpk⟩ := hany
    constructor
    · exact Or.inl
    · rintro (h | rfl)
      · exact h
      · exact List.mem_map.mpr ⟨p, hp, hpk⟩
  · simp

theorem keys_addWeight (l : List (α × Nat)) (k : α) (w : Nat) :
    (addWeight l k w).map Prod.fst = l.map Prod.fst := by
  induction l with
  | nil => rfl
  | cons p rest ih =>
    unfold addWeight at ih ⊢
    by_cases h : p.1 = k <;> simp [h, ih]

theorem sum_setdefault (l : List (α × Nat)) (k : α) :
    ((setdefault l k).map Prod.snd).sum = (l.map Prod.snd).sum := by
  unfold setdefault
  split <;> simp

theorem nodup_setdefault (l : List (α × Nat)) (k : α)
    (h : (l.map Prod.fst).Nodup) : ((setdefault l k).map Prod.fst).Nodup := by
  unfold setdefault
  split
  · exact h
  · rename_i hany
    simp only [List.any_eq_true, decide_eq_true_eq] at hany
    push_neg at hany
    simp only [List.map_append, List.map_cons, List.map_nil]
    rw [List.nodup_append]
    refine ⟨h, List.nodup_singleton _, ?_⟩
    intro a ha hb
    simp only [List.mem_singleton] at hb
    subst hb
    obtain ⟨p, hp, hpk⟩ := List.mem_map.mp ha
    exact hany p hp hpk

theorem mem_keys_setdefault_self (l : List (α × Nat)) (k : α) :
    k ∈ (setdefault l k).map Prod.fst :=
  (mem_keys_setdefault l k k).mpr (Or.inr rfl)

theorem addWeight_of_not_mem (l : List (α × Nat)) (k : α) (w : Nat)
    (h : k ∉ l.map Prod.fst) : addWeight l k w = l := by
  induction l with
  | nil => rfl
  | cons p rest ih =>
    simp only [List.map_cons, List.mem_cons, not_or] at h
    simp only [addWeight, List.map_cons] at ih ⊢
    rw [if_neg (fun e : p.1 = k => h.1 e.symm), ih h.2]

theorem sum_addWeight (l : List (α × Nat)) (k : α) (w : Nat)
    (hmem : k ∈ l.map Prod.fst) (hnd : (l.map Prod.fst).Nodup) :
    ((addWeight l k w).map Prod.snd).sum = (l.map Prod.snd).sum + w := by
  induction l with
  | nil => cases hmem
  | cons p rest ih =>
    simp only [List.map_cons, List.nodup_cons] at hnd
    simp only [addWeight, List.map_cons] at ih ⊢
    by_cases hp : p.1 = k
    · rw [if_pos hp]
      have hrest : k ∉ rest.map Prod.fst := hp ▸ hnd.1
      have : addWeight rest k w = rest := addWeight_of_not_mem rest k w hrest
      simp only [addWeight] at this
      rw [this]
      simp only [List.map_cons, List.sum_cons]
      omega
    · rw [if_neg hp]
      have hm : k ∈ rest.map Prod.fst := by
        rcases List.mem_cons.mp hmem with h | h
        · exact absurd h.symm hp
        · exact h
      simp only [List.map_cons, List.sum_cons, ih hm hnd.2]
      omega

theorem buildFinal_aux (cs : List (Comparison α)) :
    ∀ (l : List (α × Nat)) (t : Nat), (l.map Prod.fst).Nodup →
      (l.map Prod.snd).sum = t →
      (((cs.foldl
        (fun acc c =>
          (addWeight (setdefault (setdefault acc.1 c.best) c.worst) c.best c.weight,
           acc.2 + c.weight)) (l, t)).1.map Prod.fst).Nodup ∧
       ((cs.foldl
        (fun acc c =>
          (addWeight (setdefault (setdefault acc.1 c.best) c.worst) c.best c.weight,
           acc.2 + c.weight)) (l, t)).1.map Prod.snd).sum =
       (cs.foldl
        (fun acc c =>
          (addWeight (setdefault (setdefault acc.1 c.best) c.worst) c.best c.weight,
           acc.2 + c.weight)) (l, t)).2) := by
  induction cs with
  | nil => intro l t h1 h2; exact ⟨h1, h2⟩
  | cons c rest ih =>
    intro l t h1 h2
    simp only [List.foldl_cons]
    apply ih
    · rw [keys_addWeight]
      exact nodup_setdefault _ _ (nodup_setdefault _ _ h1)
    · have hmem : c.best ∈ ((setdefault (setdefault l c.best) c.worst).map Prod.fst) :=
        (mem_keys_setdefault _ _ _).mpr (Or.inl (mem_keys_setdefault_self _ _))
      have hnd : ((setdefault (setdefault l c.best) c.worst).map Prod.fst).Nodup :=
        nodup_setdefault _ _ (nodup_setdefault _ _ h1)
      rw [sum_addWeight _ _ _ hmem hnd, sum_setdefault, sum_setdefault, h2]

theorem buildFinal_nodup_sum (cs : List (Comparison α)) :
    (((buildFinal cs).1).map Prod.fst).Nodup ∧
    (((buildFinal cs).1).map Prod.snd).sum = (buildFinal cs).2 :=
  buildFinal_aux cs [] 0 List.nodup_nil rfl

theorem mem_keys_foldl (cs : List (Comparison α)) (a : α) :
    ∀ (l : List (α × Nat)) (t : Nat),
      (a ∈ ((cs.foldl
        (fun acc c =>
          (addWeight (setdefault (setdefault acc.1 c.best) c.worst) c.best c.weight,
           acc.2 + c.weight)) (l, t)).1.map Prod.fst) ↔
       a ∈ l.map Prod.fst ∨ ∃ c ∈ cs, a = c.best ∨ a = c.worst) := by
  induction cs with
  | nil => intro l t; simp
  | cons c rest ih =>
    intro l t
    simp only [List.foldl_cons]
    rw [ih]
    rw [keys_addWeight, mem_keys_setdefault, mem_keys_setdefault]
    simp only [List.mem_cons]
    constructor
    · rintro (((h | h) | h) | ⟨c', hc', h⟩)
      · exact Or.inl h
      · exact Or.inr ⟨c, Or.inl rfl, Or.inl h⟩
      · exact Or.inr ⟨c, Or.inl rfl, Or.inr h⟩
      · exact Or.inr ⟨c', Or.inr hc', h⟩
    · rintro (h | ⟨c', (rfl | hc'), h⟩)
      · exact Or.inl (Or.inl (Or.inl h))
      · rcases h with h | h
        · exact Or.inl (Or.inl (Or.inr h))
        · exact Or.inl (Or.inr h)
      · exact Or.inr ⟨c', hc', h⟩

theorem mem_keys_buildFinal (cs : List (Comparison α)) (a : α) :
    a ∈ ((buildFinal cs).1).map Prod.fst ↔ ∃ c ∈ cs, a = c.best ∨ a = c.worst := by
  rw [buildFinal, mem_keys_foldl]
  simp

theorem sortDesc_perm (l : List (α × Nat)) : List.Perm (sortDesc l) l :=
  List.perm_insertionSort _ l

theorem sortDesc_sorted (l : List (α × Nat)) :
    List.Sorted (fun p q : α × Nat => q.2 ≤ p.2) (sortDesc l) := by
  haveI : IsTotal (α × Nat) (fun p q => q.2 ≤ p.2) := ⟨fun a b => Nat.le_total b.2 a.2⟩
  haveI : IsTrans (α × Nat) (fun p q => q.2 ≤ p.2) :=
    ⟨fun a b c h1 h2 => Nat.le_trans h2 h1⟩
  exact List.sorted_insertionSort _ l

theorem rankWalk_map_item (total : Nat) :
    ∀ (l : List (α × Nat)) (i : Nat) (b : Bool),
      (rankWalk total i b l).map RankLine.item = l.map Prod.fst := by
  intro l
  induction l with
  | nil => intro i b; rfl
  | cons p rest ih =>
    intro i b
    unfold rankWalk
    simp only [List.map_cons]
    rw [ih]
    split <;> rfl

theorem rankWalk_ranked (total : Nat) :
    ∀ (l : List (α × Nat)) (i : Nat), ∀ r ∈ rankWalk total i true l,
      r.pos ≠ none ∧ r.percentage = some (percentage_calc r.weight total) := by
  intro l
  induction l with
  | nil => intro i r hr; cases hr
  | cons p rest ih =>
    intro i r hr
    unfold rankWalk at hr
    simp only [Bool.true_or, if_pos] at hr
    rcases List.mem_cons.mp hr with rfl | hr
    · exact ⟨by simp, rfl⟩
    · exact ih (i + 1) r hr

theorem exists_pos_of_sum_pos (l : List (α × Nat))
    (h : 0 < (l.map Prod.snd).sum) : ∃ p ∈ l, 0 < p.2 := by
  induction l with
  | nil => simp at h
  | cons p rest ih =>
    simp only [List.map_cons, List.sum_cons] at h
    by_cases hp : 0 < p.2
    · exact ⟨p, List.mem_cons_self _ _, hp⟩
    · obtain ⟨q, hq, hq2⟩ := ih (by omega)
      exact ⟨q, List.mem_cons_of_mem _ hq, hq2⟩

theorem percentage_calc_eq_floor (w t : Nat) :
    percentage_calc w t = Int.floor ((w : ℚ) / (t : ℚ) * 100 + 1 / 2) := by
  unfold percentage_calc pyInt
  rw [if_pos (by positivity)]

/-- C2 amended: when the comparison collection is empty, every item of the
working set appears in the ranking output, each with the unresolved `'?'`
rank marker; when comparisons exist, the output lists exactly the items that
occur in some stored comparison (as best or worst) — an item of the working
set appearing in zero comparisons is omitted, contrary to the original
claim. -/
theorem output_items_characterization (items : List α) (cs : List (Comparison α)) :
    (cs = [] → (get_ordered_list items cs).map RankLine.item = items ∧
      ∀ r ∈ get_ordered_list items cs, r.pos = none) ∧
    (cs ≠ [] → ∀ a : α,
      (∃ r ∈ get_ordered_list items cs, r.item = a) ↔
        ∃ c ∈ cs, a = c.best ∨ a = c.worst) := by
  constructor
  · rintro rfl
    constructor
    · simp [get_ordered_list, buildFinal, Function.comp_def]
    · intro r hr
      simp only [get_ordered_list, buildFinal, List.foldl_nil, List.isEmpty_nil,
        if_pos, List.mem_map] at hr
      obtain ⟨a, ha, rfl⟩ := hr
      rfl
  · intro hne a
    obtain ⟨c0, hc0⟩ : ∃ c, c ∈ cs := by
      cases cs with
      | nil => exact absurd rfl hne
      | cons c rest => exact ⟨c, List.mem_cons_self _ _⟩
    have hbm : c0.best ∈ ((buildFinal cs).1).map Prod.fst :=
      (mem_keys_buildFinal cs c0.best).mpr ⟨c0, hc0, Or.inl rfl⟩
    have hfe : (buildFinal cs).1.isEmpty = false := by
      cases hf : (buildFinal cs).1 with
      | nil => rw [hf] at hbm; cases hbm
      | cons _ _ => rfl
    have hout : get_ordered_list items cs =
        rankWalk (buildFinal cs).2 0 false (sortDesc (buildFinal cs).1) := by
      unfold get_ordered_list
      dsimp only
      rw [hfe]
      simp
    rw [hout]
    have hmm : (∃ r ∈ rankWalk (buildFinal cs).2 0 false (sortDesc (buildFinal cs).1),
        r.item = a) ↔
        a ∈ (rankWalk (buildFinal cs).2 0 false (sortDesc (buildFinal cs).1)).map
          RankLine.item := by
      rw [List.mem_map]
    rw [hmm, rankWalk_map_item]
    rw [← mem_keys_buildFinal cs a]
    constructor
    · intro h
      exact (((sortDesc_perm (buildFinal cs).1).map Prod.fst).mem_iff).mp h
    · intro h
      exact (((sortDesc_perm (buildFinal cs).1).map Prod.fst).mem_iff).mpr h

theorem rankWalk_ranked_of_head_pos (total : Nat) (q : α × Nat)
    (qs : List (α × Nat)) (hq : q.2 ≠ 0) :
    ∀ (i : Nat) (b : Bool), ∀ r ∈ rankWalk total i b (q :: qs),
      r.pos ≠ none ∧ r.percentage = some (percentage_calc r.weight total) := by
  intro i b r hr
  unfold rankWalk at hr
  dsimp only at hr
  have hw : (b || decide (q.2 ≠ 0)) = true := by simp [hq]
  rw [hw] at hr
  rw [if_pos rfl] at hr
  rcases List.mem_cons.mp hr with rfl | hr2
  · exact ⟨by simp, rfl⟩
  · exact rankWalk_ranked total qs (i + 1) r hr2

/-- C3: whenever the grand total `t` of stored weights is positive, every row
of the ranking output is ranked (no `'?'` marker) and displays the percentage
`⌊w / t * 100 + 1/2⌋` (round-half-up) for its accumulated weight `w`. -/
theorem ranked_rows_percentage (items : List α) (cs : List (Comparison α))
    (h : 0 < (buildFinal cs).2) :
    ∀ r ∈ get_ordered_list items cs,
      r.pos ≠ none ∧
      r.percentage =
        some (Int.floor ((r.weight : ℚ) / (((buildFinal cs).2 : Nat) : ℚ) * 100 + 1 / 2)) := by
  obtain ⟨hnodup, hsum⟩ := buildFinal_nodup_sum cs
  have hpos : 0 < (((buildFinal cs).1).map Prod.snd).sum := by rw [hsum]; exact h
  obtain ⟨p, hp, hp2⟩ := exists_pos_of_sum_pos _ hpos
  have hmem : p ∈ sortDesc (buildFinal cs).1 := (sortDesc_perm _).mem_iff.mpr hp
  intro r hr
  cases hsd : sortDesc (buildFinal cs).1 with
  | nil => rw [hsd] at hmem; cases hmem
  | cons q qs =>
    have hq : 0 < q.2 := by
      rw [hsd] at hmem
      rcases List.mem_cons.mp hmem with rfl | hmem2
      · exact hp2
      · have hs := sortDesc_sorted (buildFinal cs).1
        rw [hsd] at hs
        have := List.rel_of_sorted_cons hs p hmem2
        omega
    have hfe : (buildFinal cs).1.isEmpty = false := by
      cases hf : (buildFinal cs).1 with
      | nil =>
        rw [hf] at hp
        cases hp
      | cons _ _ => rfl
    have hout : get_ordered_list items cs =
        rankWalk (buildFinal cs).2 0 false (sortDesc (buildFinal cs).1) := by
      unfold get_ordered_list
      dsimp only
      rw [hfe]
      simp
    rw [hout, hsd] at hr
    rw [← percentage_calc_eq_floor]
    exact rankWalk_ranked_of_head_pos (buildFinal cs).2 q qs
      (Nat.pos_iff_ne_zero.mp hq) 0 false r hr


/-- C9: if the elicitation loop of a compare pass ends in `EOFError`
(exhausted input at any point during the run), `_do_compare` leaves the
comparison collection empty — everything collected in the run is
discarded. -/
theorem eof_discards_run (items : List α) (input : List String)
    (h : compareLoop ⟨combinations2 items, 0⟩ [] input = .error PyError.eofError) :
    _do_compare items input = [] := by
  unfold _do_compare
  rw [h]

/-- Witness for `output_items_characterization` at concrete states. -/
theorem output_items_characterization_witness :
    ((get_ordered_list ["A", "B"] ([] : List (Comparison String))).map RankLine.item
        = ["A", "B"] ∧
      ∀ r ∈ get_ordered_list ["A", "B"] ([] : List (Comparison String)), r.pos = none) ∧
    ((∃ r ∈ get_ordered_list ["A", "B", "C"]
        [(⟨("A", "B"), 2⟩ : Comparison String)], r.item = "A") ↔
      ∃ c ∈ [(⟨("A", "B"), 2⟩ : Comparison String)], "A" = c.best ∨ "A" = c.worst) :=
  ⟨(output_items_characterization ["A", "B"] []).1 rfl,
   (output_items_characterization ["A", "B", "C"] [⟨("A", "B"), 2⟩]).2 (by decide) "A"⟩

/-- Witness for `ranked_rows_percentage`: a state with weights `X=1`, `Y=2`,
total 3, where the `X` row displays 33%; plus the claim's spot checks
`1/3 → 33%` and `1/8 → 13%` (round-half-up, not banker's rounding). -/
theorem ranked_rows_percentage_witness :
    ((RankLine.mk "X" 1 (some 2) (some 33) : RankLine String).pos ≠ none ∧
     (RankLine.mk "X" 1 (some 2) (some 33) : RankLine String).percentage =
       some (Int.floor
         (((RankLine.mk "X" 1 (some 2) (some 33) : RankLine String).weight : ℚ) /
           (((buildFinal
             [(⟨("X", "Y"), 1⟩ : Comparison String), ⟨("Y", "X"), 2⟩]).2 : Nat) : ℚ)
           * 100 + 1 / 2))) ∧
    percentage_calc 1 3 = 33 ∧ percentage_calc 1 8 = 13 :=
  ⟨ranked_rows_percentage ["X", "Y"] [⟨("X", "Y"), 1⟩, ⟨("Y", "X"), 2⟩] (by decide)
    (RankLine.mk "X" 1 (some 2) (some 33))
    (by
      have h67 : percentage_calc 2 3 = 67 := by rw [percentage_calc_eq_div]; rfl
      have h33 : percentage_calc 1 3 = 33 := by rw [percentage_calc_eq_div]; rfl
      have key : get_ordered_list ["X", "Y"]
          [(⟨("X", "Y"), 1⟩ : Comparison String), ⟨("Y", "X"), 2⟩] =
          [⟨"Y", 2, some 1, some (percentage_calc 2 3)⟩,
           ⟨"X", 1, some 2, some (percentage_calc 1 3)⟩] := rfl
      rw [key, h67, h33]
      decide),
   by rw [percentage_calc_eq_div]; rfl,
   by rw [percentage_calc_eq_div]; rfl⟩

/-- Witness for `eof_discards_run`: two items and an already-empty input
stream, so the very first `request_best` hits `EOFError`. -/
theorem eof_discards_run_witness :
    compareLoop (⟨combinations2 ["a", "b"], 0⟩ : SeekableIterator (String × String))
      [] [] = .error PyError.eofError ∧
    _do_compare ["a", "b"] ([] : List String) = [] :=
  ⟨by rw [compareLoop]; rfl,
   eof_discards_run ["a", "b"] [] (by rw [compareLoop]; rfl)⟩

end Pca
